import Mathlib

/-
Verification of the multi-account AWS cost CLI tool (src/src/main.rs) against
its specification.  The aggregation and reporting pipeline of main.rs is
shallowly embedded below: currency amounts are modelled as exact rationals
(the Rust code uses f64; none of the properties below hinges on binary
floating-point rounding, and the parse outcomes that can be non-finite are
modelled separately by `parseF64`/`rustCost`), Rust HashMap contents are
modelled as association lists in first-insertion order while their
UNSPECIFIED iteration order is accounted for by quantifying order-sensitive
theorems over arbitrary entry order, and Rust's stable sort_by is modelled
as a stable insertion sort with the same comparator.  Dates are modelled as
integer day numbers in the proleptic Gregorian calendar, matching the
ordering and day arithmetic of chrono's NaiveDate.
-/

namespace AwsCostCli

/-- Rounding half away from zero, as Rust's f64::round does (for negative
arguments, `⌈q - 1/2⌉ = -⌊-q + 1/2⌋`). -/
def rustRound (q : ℚ) : ℚ := if 0 ≤ q then ((⌊q + 1/2⌋ : ℤ) : ℚ) else ((-⌊-q + 1/2⌋ : ℤ) : ℚ)

/-! ### Insertion-ordered additive maps (model of the HashMap accumulators) -/

/-- Model of `*map.entry(k).or_insert(0.0) += v` on a `HashMap<String, f64>`:
an association list keyed in first-insertion order, adding `v` to the entry
for `k`, appending a fresh entry at the end when absent. -/
def insertAdd (m : List (String × ℚ)) (k : String) (v : ℚ) : List (String × ℚ) :=
  match m with
  | [] => [(k, v)]
  | (k', v') :: rest => if k' = k then (k', v' + v) :: rest else (k', v') :: insertAdd rest k v

/-- Model of `map.get(k).unwrap_or(&0.0)`. -/
def lookupD (m : List (String × ℚ)) (k : String) : ℚ :=
  match m with
  | [] => 0
  | (k', v) :: rest => if k' = k then v else lookupD rest k

/-- Model of `map.values().sum()`. -/
def sumValues (m : List (String × ℚ)) : ℚ := (m.map Prod.snd).sum

/-- Nested service → (month → cost) map update, modelling
`service_monthly_totals.entry(svc).or_insert_with(HashMap::new)` followed by
`*inner.entry(month).or_insert(0.0) += v`.  The association list represents
the map's CONTENTS, listed in first-insertion order; a Rust
`std::collections::HashMap` iterates its entries in an UNSPECIFIED order, so
properties of consumers that iterate this map (the service ranking) are
stated for an arbitrary entry order, never assuming first-insertion order —
see `c4_counterexample`. -/
def insertAdd2 (m : List (String × List (String × ℚ))) (svc month : String) (v : ℚ) :
    List (String × List (String × ℚ)) :=
  match m with
  | [] => [(svc, [(month, v)])]
  | (k, mm) :: rest =>
      if k = svc then (k, insertAdd mm month v) :: rest
      else (k, mm) :: insertAdd2 rest svc month v

/-- The month → cost map recorded for one service (empty when the service is
absent). -/
def svcMonthly (m : List (String × List (String × ℚ))) (svc : String) : List (String × ℚ) :=
  match m with
  | [] => []
  | (k, mm) :: rest => if k = svc then mm else svcMonthly rest svc

/-- One service's total cost: the sum of its month values. -/
def svcTotal (m : List (String × List (String × ℚ))) (svc : String) : ℚ :=
  sumValues (svcMonthly m svc)

/-! ### Stable sorting (model of Rust's stable `sort_by`) -/

/-- Insert `a` before the first element `b` with `le a b`. -/
def orderedInsertBy {α : Type} (le : α → α → Bool) (a : α) : List α → List α
  | [] => [a]
  | b :: l => if le a b then a :: b :: l else b :: orderedInsertBy le a l

/-- Stable insertion sort; with a total `le` this produces the unique stable
sorting, hence coincides with Rust's stable `sort_by` under the same
comparator. -/
def insertionSortBy {α : Type} (le : α → α → Bool) : List α → List α
  | [] => []
  | a :: l => orderedInsertBy le a (insertionSortBy le l)

/-! ### Column pagination (model of `slice::chunks`) -/

/-- Model of Rust's `slice::chunks(n)`: consecutive chunks of size `n`, the
last one possibly shorter. -/
def chunksOf {α : Type} (n : ℕ) : List α → List (List α)
  | [] => []
  | a :: l =>
    if h : n = 0 then []
    else
      have : (List.drop n (a :: l)).length < (a :: l).length := by
        simp only [List.length_drop, List.length_cons]
        exact Nat.sub_lt (Nat.succ_pos _) (Nat.pos_of_ne_zero h)
      ((a :: l).take n) :: chunksOf n ((a :: l).drop n)
termination_by l => l.length

/-! ### Date parsing (model of chrono NaiveDate parse with format %Y-%m-%d) -/

def digitVal (c : Char) : Option ℕ :=
  if 48 ≤ c.toNat ∧ c.toNat ≤ 57 then some (c.toNat - 48) else none

def isLeapYear (y : ℤ) : Bool := (y % 4 = 0 ∧ y % 100 ≠ 0) ∨ y % 400 = 0

def monthLength (y : ℤ) (m : ℕ) : ℕ :=
  List.getD [31, if isLeapYear y then 29 else 28, 31, 30, 31, 30, 31, 31, 30, 31, 30, 31]
    (m - 1) 0

def daysBeforeMonth (y : ℤ) (m : ℕ) : ℤ :=
  (List.getD [0, 31, 59, 90, 120, 151, 181, 212, 243, 273, 304, 334] (m - 1) 0 : ℕ) +
    (if 2 < m ∧ isLeapYear y then 1 else 0)

/-- Day number of a proleptic-Gregorian civil date (days since 0000-12-31,
so 0001-01-01 is day 1); monotone in calendar order, one unit per day. -/
def civilToDays (y : ℤ) (m d : ℕ) : ℤ :=
  365 * (y - 1) + Int.fdiv (y - 1) 4 - Int.fdiv (y - 1) 100 + Int.fdiv (y - 1) 400 +
    daysBeforeMonth y m + d

/-- Model of `NaiveDate::parse_from_str(s, "%Y-%m-%d")` for the 4-digit-year
ISO dates this tool deals in: returns the civil day number, or none when the
string is not a valid calendar date in that format. -/
def parseDate (s : String) : Option ℤ :=
  match s.data with
  | [c1, c2, c3, c4, h1, c5, c6, h2, c7, c8] =>
    if h1 = '-' ∧ h2 = '-' then
      match digitVal c1, digitVal c2, digitVal c3, digitVal c4,
            digitVal c5, digitVal c6, digitVal c7, digitVal c8 with
      | some y1, some y2, some y3, some y4, some m1, some m2, some d1, some d2 =>
        let y : ℤ := (y1 * 1000 + y2 * 100 + y3 * 10 + y4 : ℕ)
        let mo := m1 * 10 + m2
        let d := d1 * 10 + d2
        if 1 ≤ mo ∧ mo ≤ 12 ∧ 1 ≤ d ∧ d ≤ monthLength y mo then
          some (civilToDays y mo d)
        else none
      | _, _, _, _, _, _, _, _ => none
    else none
  | _ => none

/-! ### Cost amount parsing (model of `str::parse::<f64>`) -/

def spanDigits : List Char → List ℕ × List Char
  | [] => ([], [])
  | c :: rest =>
    match digitVal c with
    | some d =>
        let (ds, r) := spanDigits rest
        (d :: ds, r)
    | none => ([], c :: rest)

def digitsToNat (ds : List ℕ) : ℕ := ds.foldl (fun a d => a * 10 + d) 0

def fracToRat (ds : List ℕ) : ℚ := (digitsToNat ds : ℚ) / ((10 : ℚ) ^ ds.length)

def parseExpSuffix (v : ℚ) : List Char → Option ℚ
  | [] => some v
  | e :: rest =>
    if e = 'e' ∨ e = 'E' then
      let (esign, r2) : ℤ × List Char :=
        match rest with
        | '-' :: r => (-1, r)
        | '+' :: r => (1, r)
        | _ => (1, rest)
      let (ed, r3) := spanDigits r2
      if ed = [] ∨ r3 ≠ [] then none
      else some (v * (10 : ℚ) ^ (esign * (digitsToNat ed : ℤ)))
    else none

/-- The outcomes of parsing into an f64 that matter here: a finite value
(kept as an exact rational) or one of the non-finite values a parse can
SUCCEED with. -/
inductive F64Val
  | finite (q : ℚ)
  | inf (neg : Bool)
  | nan
deriving DecidableEq

/-- ASCII-lowercased code point, for the case-insensitive inf/nan spellings. -/
def lowerToNat (c : Char) : ℕ :=
  if 65 ≤ c.toNat ∧ c.toNat ≤ 90 then c.toNat + 32 else c.toNat

def lowerEq (l target : List Char) : Bool :=
  l.map lowerToNat == target.map lowerToNat

/-- Model of Rust's `str::parse::<f64>()`: an optional sign followed by
either a case-insensitive `inf`/`infinity`/`nan` — which parses
SUCCESSFULLY, to a non-finite value — or a decimal mantissa
`D+ | D+.D* | D*.D+` with optional exponent, which parses to its exact
rational value; anything else is a parse error (`none`, Rust's `Err`).
The binary f64 rounding of decimal values, and the overflow of out-of-range
finite decimals (such as 1e999) to infinity, are outside this rational
model. -/
def parseF64 (s : String) : Option F64Val :=
  let (neg, l0) : Bool × List Char :=
    match s.data with
    | '-' :: rest => (true, rest)
    | '+' :: rest => (false, rest)
    | l => (false, l)
  if lowerEq l0 "inf".data || lowerEq l0 "infinity".data then some (F64Val.inf neg)
  else if lowerEq l0 "nan".data then some F64Val.nan
  else
    let sign : ℚ := if neg then -1 else 1
    let (ip, l1) := spanDigits l0
    match l1 with
    | '.' :: rest =>
        let (fp, l2) := spanDigits rest
        if ip = [] ∧ fp = [] then none
        else (parseExpSuffix (sign * ((digitsToNat ip : ℚ) + fracToRat fp)) l2).map F64Val.finite
    | l2 =>
        if ip = [] then none
        else (parseExpSuffix (sign * (digitsToNat ip : ℚ)) l2).map F64Val.finite

/-- The rational carried by a finite f64 value.  Non-finite values have no
rational counterpart and are mapped to 0 here; this projection feeds only
the rational shadow of the pipeline (`groupCost`), and no theorem relies on
it at a non-finite value — see `c9_counterexample` for the program's actual
(non-zero) behaviour there. -/
def F64Val.toRat : F64Val → ℚ
  | F64Val.finite q => q
  | F64Val.inf _ => 0
  | F64Val.nan => 0

/-! ### Raw API response shape (the parsed billing response the core consumes) -/

/-- One group of a `ResultByTime`: the joined group keys and the
`UnblendedCost` amount string; `none` models an absent metrics entry or
absent amount (both read as cost 0 through `unwrap_or(0.0)`). -/
structure RawGroup where
  keys : List String
  amount : Option String
deriving DecidableEq

/-- One `ResultByTime`: `month` is `time_period.start` (empty when absent)
and `groups` the group list (empty when absent). -/
structure RawResult where
  month : String
  groups : List RawGroup
deriving DecidableEq

/-- The f64 cost the program computes for one raw group, main.rs lines
309-315: a missing metrics entry or amount reads as 0.0, and the amount
string goes through `parse::<f64>().unwrap_or(0.0)` — so only a parse ERROR
degrades to 0.0, while a successful non-finite parse (inf/nan) keeps its
non-finite value. -/
def rustCost (g : RawGroup) : F64Val :=
  match g.amount with
  | none => F64Val.finite 0
  | some a => (parseF64 a).getD (F64Val.finite 0)

/-- Rational shadow of `rustCost`, driving the rational-valued pipeline
model: faithful to the program whenever the parsed cost is finite.
Non-finite costs cannot be represented in ℚ; the pipeline theorems are
therefore statements about runs whose parsed costs are finite, and the
program's behaviour on a non-finite parse is captured separately at the
`rustCost` level (`c9_counterexample`). -/
def groupCost (g : RawGroup) : ℚ := (rustCost g).toRat

/-! ### CostRecordAggregator (main.rs lines 302-331) -/

/-- The inner loop over one result's groups (lines 307-323): accumulates the
period's `total_cost` and updates the service → (month → cost) map. -/
def processGroups (month : String) (gs : List RawGroup)
    (acc : ℚ × List (String × List (String × ℚ))) :
    ℚ × List (String × List (String × ℚ)) :=
  match gs with
  | [] => acc
  | g :: rest =>
      let service := String.intercalate ", " g.keys
      let cost := groupCost g
      processGroups month rest (acc.1 + cost, insertAdd2 acc.2 service month cost)

/-- Accumulator state while aggregating one account's results: the account's
month → total map and service map, plus the run-shared global month map and
period list (`all_months`). -/
structure AggState where
  monthly : List (String × ℚ)
  svc : List (String × List (String × ℚ))
  global : List (String × ℚ)
  allMonths : List String
deriving DecidableEq

/-- Processing of one `ResultByTime` (lines 303-330): aggregate the groups,
add the period total into the account and global month maps, and register the
period into `all_months` if unseen. -/
def processResult (st : AggState) (r : RawResult) : AggState :=
  let step := processGroups r.month r.groups (0, st.svc)
  { monthly := insertAdd st.monthly r.month step.1
    svc := step.2
    global := insertAdd st.global r.month step.1
    allMonths := if r.month ∈ st.allMonths then st.allMonths else st.allMonths ++ [r.month] }

def processResults (st : AggState) (rs : List RawResult) : AggState :=
  rs.foldl processResult st

/-! ### TrendCalculator (main.rs lines 333-346) -/

structure CostTrendData where
  month : String
  total_cost : ℚ
  mom_change_percent : ℚ
deriving DecidableEq

/-- The walk of lines 335-346 carrying the previous period's cost. -/
def buildTrendAux (totals : List (String × ℚ)) (prev : Option ℚ) :
    List String → List CostTrendData
  | [] => []
  | m :: ms =>
      let cost := lookupD totals m
      let mom : ℚ :=
        match prev with
        | none => 0
        | some p => if p = 0 then 0 else rustRound ((cost - p) / p * 100)
      ⟨m, cost, mom⟩ :: buildTrendAux totals (some cost) ms

/-- Cost trend series for one account: one point per entry of the current
`all_months` list, in that list's order. -/
def buildTrend (months : List String) (totals : List (String × ℚ)) : List CostTrendData :=
  buildTrendAux totals none months

/-! ### ServiceShareCalculator (main.rs lines 355-375) -/

structure ServiceConsumptionData where
  service : String
  monthly_costs : List (String × ℚ)
  total_cost : ℚ
  percent_of_total : ℚ
deriving DecidableEq

/-- Denominator of lines 356-359: the sum of every service's month values,
over all services (surviving or not). -/
def totalServiceCost (smt : List (String × List (String × ℚ))) : ℚ :=
  (smt.map (fun p => sumValues p.2)).sum

/-- The loop of lines 360-374: keep services with positive total, in
encounter order, computing each percent share against `tsc`. -/
def buildSurvivors (tsc : ℚ) : List (String × List (String × ℚ)) → List ServiceConsumptionData
  | [] => []
  | (service, mc) :: rest =>
      let stc := sumValues mc
      if 0 < stc then
        { service := service, monthly_costs := mc, total_cost := stc,
          percent_of_total := if 0 < tsc then rustRound (stc / tsc * 100) else 0 } ::
          buildSurvivors tsc rest
      else buildSurvivors tsc rest

/-- Comparator of line 375: `b.total_cost.partial_cmp(&a.total_cost)`, i.e.
descending by total cost; stable under insertion-sort modelling. -/
def scLe (a b : ServiceConsumptionData) : Bool := decide (b.total_cost ≤ a.total_cost)

/-- The ranked service consumption list (lines 355-375). -/
def serviceConsumption (smt : List (String × List (String × ℚ))) :
    List ServiceConsumptionData :=
  insertionSortBy scLe (buildSurvivors (totalServiceCost smt) smt)

/-! ### AccountReportBuilder and the account loop (main.rs lines 240-393) -/

/-- Per-account report data; the identity fields (profile, account id, name)
play no role in any claim and are omitted.  `monthly_costs` is the account's
raw month map as pushed into the unified view row (line 391). -/
structure AccountCostData where
  cost_trend : List CostTrendData
  service_consumption : List ServiceConsumptionData
  total_cost : ℚ
  average_monthly_cost : ℚ
  monthly_costs : List (String × ℚ)
deriving DecidableEq

/-- Processing of one account (lines 240-393): aggregate its results into
fresh per-account maps while extending the shared `all_months` and global
month map, then build the trend over the `all_months` list as it stands at
this point of the run. -/
def processOneAccount (allMonths : List String) (global : List (String × ℚ))
    (results : List RawResult) :
    AccountCostData × List String × List (String × ℚ) :=
  let st := processResults ⟨[], [], global, allMonths⟩ results
  let total := sumValues st.monthly
  ({ cost_trend := buildTrend st.allMonths st.monthly
     service_consumption := serviceConsumption st.svc
     total_cost := total
     average_monthly_cost := if st.allMonths = [] then 0 else total / (st.allMonths.length : ℚ)
     monthly_costs := st.monthly },
   st.allMonths, st.global)

/-- The sequential account loop: accounts share `all_months` and the global
month map, each contributing its aggregated results in turn. -/
def processAccounts (allMonths : List String) (global : List (String × ℚ)) :
    List (List RawResult) → List AccountCostData × List String × List (String × ℚ)
  | [] => ([], allMonths, global)
  | r :: rs =>
      let step := processOneAccount allMonths global r
      let rest := processAccounts step.2.1 step.2.2 rs
      (step.1 :: rest.1, rest.2)

/-- A whole run over the (already fetched) result lists of each account. -/
def runPipeline (accts : List (List RawResult)) :
    List AccountCostData × List String × List (String × ℚ) :=
  processAccounts [] [] accts

/-! ### UnifiedViewBuilder / GlobalSummary (main.rs lines 401-414) -/

/-- Line 125: `end_date - Duration::days(180)`. -/
def sixMonthsAgo (endDate : ℤ) : ℤ := endDate - 180

/-- Lines 401-407: sort `all_months`, then keep the periods that parse as a
date on or after the recent-window cutoff. -/
def filteredMonths (allMonths : List String) (endDate : ℤ) : List String :=
  (insertionSortBy (fun a b => decide (a ≤ b)) allMonths).filter
    (fun m =>
      match parseDate m with
      | some d => decide (sixMonthsAgo endDate ≤ d)
      | none => false)

structure GlobalSummary where
  total_cost : ℚ
  average_monthly_cost : ℚ
deriving DecidableEq

/-- Lines 409-414: the total sums the whole global month map, the average
divides by the number of filtered months. -/
def globalSummary (global : List (String × ℚ)) (fm : List String) : GlobalSummary :=
  { total_cost := sumValues global
    average_monthly_cost := if fm = [] then 0 else sumValues global / (fm.length : ℚ) }

/-! ### ReportRenderer pagination (main.rs lines 429-430 and 485) -/

def maxColumns : ℕ := 10

/-- Line 430: `filtered_months.chunks(max_columns - 3)`. -/
def unifiedPages (fm : List String) : List (List String) := chunksOf (maxColumns - 3) fm

/-- Line 485: `filtered_months.chunks(max_columns - 2)`. -/
def servicePages (fm : List String) : List (List String) := chunksOf (maxColumns - 2) fm

/-! ### Cost query construction (main.rs lines 246-291) -/

inductive GroupDefinitionType
  | dimension
  | tag
deriving DecidableEq

structure GroupDefinition where
  type : GroupDefinitionType
  key : String
deriving DecidableEq

structure TagValuesFilter where
  key : String
  values : List String
deriving DecidableEq

inductive ExpressionFilter
  | linkedAccount (accountId : String)
  | tags (t : TagValuesFilter)
deriving DecidableEq

/-- The parts of the GetCostAndUsage request the grouping claims concern:
`group_by` appends to a list, `filter` replaces the single filter slot, as in
the SDK's fluent builder. -/
structure CostRequest where
  groupBys : List GroupDefinition
  filter : Option ExpressionFilter
deriving DecidableEq

/-- Lines 246-291: the request always carries the SERVICE dimension group-by
and a linked-account filter; with both tag key and value the filter slot is
replaced by a tag filter, with only a tag key a tag group-by is appended. -/
def buildCostRequest (accountId : String) (tagKey tagValue : Option String) : CostRequest :=
  let base : CostRequest :=
    { groupBys := [⟨GroupDefinitionType.dimension, "SERVICE"⟩]
      filter := some (ExpressionFilter.linkedAccount accountId) }
  match tagKey, tagValue with
  | some k, some v => { base with filter := some (ExpressionFilter.tags ⟨k, [v]⟩) }
  | some k, none => { base with groupBys := base.groupBys ++ [⟨GroupDefinitionType.tag, k⟩] }
  | none, _ => base

/-! ### Early validation (main.rs lines 120-143) -/

inductive GranularityOption
  | daily
  | monthly
  | hourly
deriving DecidableEq

/-- Outcome of main's prefix before any data fetch: a fatal configuration
error (the `?` on date parsing), a clean `return Ok(())` abort on the hourly
7-day limit, or proceeding with the parsed dates. -/
inductive EarlyOutcome
  | configError
  | cleanAbortHourly
  | proceed (startD endD : ℤ)
deriving DecidableEq

/-- Lines 120-143: parse both dates (failure is fatal), then for hourly
granularity abort cleanly when the span exceeds 7 days. -/
def validateDates (startStr endStr : String) (gran : GranularityOption) : EarlyOutcome :=
  match parseDate startStr with
  | none => EarlyOutcome.configError
  | some s =>
    match parseDate endStr with
    | none => EarlyOutcome.configError
    | some e =>
      if gran = GranularityOption.hourly ∧ 7 < e - s then EarlyOutcome.cleanAbortHourly
      else EarlyOutcome.proceed s e

/-! ### CSV output paths (main.rs lines 544-602) -/

/-- Model of `str::trim_end_matches(suffix)`: repeatedly remove the suffix
from the end while it is present. -/
def trimEndAll (suf : List Char) (l : List Char) : List Char :=
  if h : suf ≠ [] ∧ suf.length ≤ l.length ∧ l.drop (l.length - suf.length) = suf then
    trimEndAll suf (l.take (l.length - suf.length))
  else l
termination_by l.length
decreasing_by
  simp only [List.length_take]
  have h1 : 0 < suf.length := List.length_pos.mpr h.1
  have h2 : suf.length ≤ l.length := h.2.1
  omega

/-- `csv_path.trim_end_matches(".csv")`. -/
def trimCsv (s : String) : String := ⟨trimEndAll ".csv".data s.data⟩

/-- Lines 546-551. -/
def trendCsvPath (base profile account : String) : String :=
  trimCsv base ++ "_trend_profile_" ++ profile ++ "_account_" ++ account ++ ".csv"

/-- Lines 565-570. -/
def serviceCsvPath (base profile account : String) : String :=
  trimCsv base ++ "_service_summary_profile_" ++ profile ++ "_account_" ++ account ++ ".csv"

/-- Line 594. -/
def globalCsvPath (base : String) : String := trimCsv base ++ "_global_summary.csv"

/-- Line 602. -/
def unifiedCsvPath (base : String) : String := trimCsv base ++ "_unified_view.csv"

/-! ## Lemmas about the additive map accumulators -/

theorem sumValues_insertAdd (m : List (String × ℚ)) (k : String) (v : ℚ) :
    sumValues (insertAdd m k v) = sumValues m + v := by
  induction m with
  | nil => simp [insertAdd, sumValues]
  | cons p rest ih =>
      obtain ⟨k', v'⟩ := p
      by_cases h : k' = k
      · simp only [insertAdd, if_pos h, sumValues, List.map_cons, List.sum_cons]
        ring
      · simp only [insertAdd, if_neg h, sumValues, List.map_cons, List.sum_cons] at ih ⊢
        rw [ih]; ring

theorem svcTotal_insertAdd2 (m : List (String × List (String × ℚ))) (k mo : String)
    (v : ℚ) (svc : String) :
    svcTotal (insertAdd2 m k mo v) svc = svcTotal m svc + (if k = svc then v else 0) := by
  induction m with
  | nil =>
      by_cases h : k = svc <;>
        simp [insertAdd2, svcTotal, svcMonthly, h, sumValues, insertAdd]
  | cons p rest ih =>
      obtain ⟨k', mm⟩ := p
      simp only [insertAdd2]
      by_cases h1 : k' = k
      · rw [if_pos h1]
        by_cases h2 : k' = svc
        · have hks : k = svc := h1 ▸ h2
          simp [svcTotal, svcMonthly, h2, hks, sumValues_insertAdd]
        · have hks : ¬ k = svc := fun hh => h2 (h1.symm ▸ hh)
          simp [svcTotal, svcMonthly, h2, hks]
      · rw [if_neg h1]
        by_cases h2 : k' = svc
        · have hks : ¬ k = svc := fun hh => h1 (h2.trans hh.symm)
          simp [svcTotal, svcMonthly, h2, hks]
        · simp only [svcTotal, svcMonthly, if_neg h2] at ih ⊢
          exact ih

/-! ## Lemmas about the aggregation of one account's raw results -/

theorem processGroups_fst (month : String) (gs : List RawGroup) (t : ℚ)
    (m : List (String × List (String × ℚ))) :
    (processGroups month gs (t, m)).1 = t + (gs.map groupCost).sum := by
  induction gs generalizing t m with
  | nil => simp [processGroups]
  | cons g rest ih =>
      simp only [processGroups, List.map_cons, List.sum_cons]
      rw [ih]; ring

theorem processGroups_svcTotal (month : String) (gs : List RawGroup) (t : ℚ)
    (m : List (String × List (String × ℚ))) (svc : String) :
    svcTotal (processGroups month gs (t, m)).2 svc =
      svcTotal m svc +
        (gs.map (fun g => if String.intercalate ", " g.keys = svc then groupCost g else 0)).sum := by
  induction gs generalizing t m with
  | nil => simp [processGroups]
  | cons g rest ih =>
      simp only [processGroups, List.map_cons, List.sum_cons]
      rw [ih, svcTotal_insertAdd2]; ring

theorem processResult_monthly (st : AggState) (r : RawResult) :
    (processResult st r).monthly = insertAdd st.monthly r.month (r.groups.map groupCost).sum := by
  simp [processResult, processGroups_fst]

theorem processResult_global (st : AggState) (r : RawResult) :
    (processResult st r).global = insertAdd st.global r.month (r.groups.map groupCost).sum := by
  simp [processResult, processGroups_fst]

theorem processResult_allMonths (st : AggState) (r : RawResult) :
    (processResult st r).allMonths =
      if r.month ∈ st.allMonths then st.allMonths else st.allMonths ++ [r.month] := rfl

theorem processResult_svcTotal (st : AggState) (r : RawResult) (svc : String) :
    svcTotal (processResult st r).svc svc =
      svcTotal st.svc svc +
        (r.groups.map (fun g => if String.intercalate ", " g.keys = svc then groupCost g else 0)).sum := by
  simp [processResult, processGroups_svcTotal]

theorem processResults_monthly_sum (rs : List RawResult) : ∀ st : AggState,
    sumValues (processResults st rs).monthly =
      sumValues st.monthly + (rs.map (fun r => (r.groups.map groupCost).sum)).sum := by
  induction rs with
  | nil => intro st; simp [processResults]
  | cons r rest ih =>
      intro st
      simp only [processResults, List.foldl_cons, List.map_cons, List.sum_cons] at ih ⊢
      rw [ih, processResult_monthly, sumValues_insertAdd]; ring

theorem processResults_global_sum (rs : List RawResult) : ∀ st : AggState,
    sumValues (processResults st rs).global =
      sumValues st.global + (rs.map (fun r => (r.groups.map groupCost).sum)).sum := by
  induction rs with
  | nil => intro st; simp [processResults]
  | cons r rest ih =>
      intro st
      simp only [processResults, List.foldl_cons, List.map_cons, List.sum_cons] at ih ⊢
      rw [ih, processResult_global, sumValues_insertAdd]; ring

theorem processResults_append (st : AggState) (a b : List RawResult) :
    processResults st (a ++ b) = processResults (processResults st a) b := by
  simp [processResults, List.foldl_append]

/-- Two aggregation states agreeing on everything observable except the
internal layout of the service map keep agreeing after processing further
results. -/
theorem processResults_congr (rs : List RawResult) : ∀ st1 st2 : AggState,
    st1.monthly = st2.monthly → st1.global = st2.global → st1.allMonths = st2.allMonths →
    (∀ svc, svcTotal st1.svc svc = svcTotal st2.svc svc) →
    (processResults st1 rs).monthly = (processResults st2 rs).monthly ∧
    (processResults st1 rs).global = (processResults st2 rs).global ∧
    (processResults st1 rs).allMonths = (processResults st2 rs).allMonths ∧
    ∀ svc, svcTotal (processResults st1 rs).svc svc = svcTotal (processResults st2 rs).svc svc := by
  induction rs with
  | nil => intro st1 st2 hm hg ha hs; exact ⟨hm, hg, ha, hs⟩
  | cons r rest ih =>
      intro st1 st2 hm hg ha hs
      simp only [processResults, List.foldl_cons] at ih ⊢
      refine ih (processResult st1 r) (processResult st2 r) ?_ ?_ ?_ ?_
      · rw [processResult_monthly, processResult_monthly, hm]
      · rw [processResult_global, processResult_global, hg]
      · rw [processResult_allMonths, processResult_allMonths, ha]
      · intro svc
        rw [processResult_svcTotal, processResult_svcTotal, hs svc]

/-! ## Lemmas about the account loop -/

theorem processOneAccount_total (am : List String) (g : List (String × ℚ))
    (r : List RawResult) :
    (processOneAccount am g r).1.total_cost =
      (r.map (fun x => (x.groups.map groupCost).sum)).sum := by
  have h := processResults_monthly_sum r ⟨[], [], g, am⟩
  simp only [processOneAccount]
  simpa [sumValues] using h

theorem processOneAccount_global_sum (am : List String) (g : List (String × ℚ))
    (r : List RawResult) :
    sumValues (processOneAccount am g r).2.2 =
      sumValues g + (r.map (fun x => (x.groups.map groupCost).sum)).sum := by
  have h := processResults_global_sum r ⟨[], [], g, am⟩
  simpa [processOneAccount] using h

theorem processAccounts_global_sum (accts : List (List RawResult)) :
    ∀ (am : List String) (g : List (String × ℚ)),
    sumValues (processAccounts am g accts).2.2 =
      sumValues g + ((processAccounts am g accts).1.map AccountCostData.total_cost).sum := by
  induction accts with
  | nil => intro am g; simp [processAccounts]
  | cons r rs ih =>
      intro am g
      simp only [processAccounts, List.map_cons, List.sum_cons]
      rw [ih, processOneAccount_global_sum, processOneAccount_total]
      ring

/-! ## Lemmas about the trend series -/

theorem buildTrendAux_map_month (totals : List (String × ℚ)) (ms : List String) :
    ∀ prev : Option ℚ, (buildTrendAux totals prev ms).map CostTrendData.month = ms := by
  induction ms with
  | nil => intro prev; simp [buildTrendAux]
  | cons m rest ih => intro prev; simp [buildTrendAux, ih]

theorem buildTrend_map_month (months : List String) (totals : List (String × ℚ)) :
    (buildTrend months totals).map CostTrendData.month = months :=
  buildTrendAux_map_month totals months none

theorem buildTrend_length (months : List String) (totals : List (String × ℚ)) :
    (buildTrend months totals).length = months.length := by
  have h := congrArg List.length (buildTrend_map_month months totals)
  simpa using h

theorem buildTrendAux_head_mom (totals : List (String × ℚ)) (c : ℚ) (ms : List String)
    (q : CostTrendData) (h : (buildTrendAux totals (some c) ms).get? 0 = some q) :
    q.mom_change_percent =
      if c = 0 then 0 else rustRound ((q.total_cost - c) / c * 100) := by
  cases ms with
  | nil => simp [buildTrendAux] at h
  | cons m rest =>
      simp only [buildTrendAux, List.get?_cons_zero, Option.some.injEq] at h
      subst h
      rfl

theorem buildTrendAux_consecutive (totals : List (String × ℚ)) (ms : List String) :
    ∀ (prev : Option ℚ) (i : ℕ) (p q : CostTrendData),
    (buildTrendAux totals prev ms).get? i = some p →
    (buildTrendAux totals prev ms).get? (i + 1) = some q →
    q.mom_change_percent =
      if p.total_cost = 0 then 0
      else rustRound ((q.total_cost - p.total_cost) / p.total_cost * 100) := by
  induction ms with
  | nil => intro prev i p q hp hq; simp [buildTrendAux] at hp
  | cons m rest ih =>
      intro prev i p q hp hq
      cases i with
      | zero =>
          simp only [buildTrendAux, List.get?_cons_zero, Option.some.injEq] at hp
          simp only [buildTrendAux, List.get?_cons_succ] at hq
          subst hp
          have h := buildTrendAux_head_mom totals (lookupD totals m) rest q hq
          simpa using h
      | succ j =>
          simp only [buildTrendAux, List.get?_cons_succ] at hp hq
          exact ih (some (lookupD totals m)) j p q hp hq

theorem buildTrend_head_mom (months : List String) (totals : List (String × ℚ))
    (p : CostTrendData) (h : (buildTrend months totals).get? 0 = some p) :
    p.mom_change_percent = 0 := by
  cases months with
  | nil => simp [buildTrend, buildTrendAux] at h
  | cons m rest =>
      simp only [buildTrend, buildTrendAux, List.get?_cons_zero, Option.some.injEq] at h
      subst h
      rfl

/-! ## Lemmas about the stable sort -/

theorem orderedInsertBy_perm {α : Type} (le : α → α → Bool) (a : α) (l : List α) :
    List.Perm (orderedInsertBy le a l) (a :: l) := by
  induction l with
  | nil => simp [orderedInsertBy]
  | cons b t ih =>
      by_cases h : le a b = true
      · simp [orderedInsertBy, h]
      · simp only [orderedInsertBy, if_neg h]
        exact (List.Perm.cons b ih).trans (List.Perm.swap a b t)

theorem insertionSortBy_perm {α : Type} (le : α → α → Bool) (l : List α) :
    List.Perm (insertionSortBy le l) l := by
  induction l with
  | nil => simp [insertionSortBy]
  | cons a t ih => exact (orderedInsertBy_perm le a _).trans (List.Perm.cons a ih)

theorem pairwise_orderedInsertBy (a : ServiceConsumptionData) (l : List ServiceConsumptionData)
    (hl : l.Pairwise (fun x y => y.total_cost ≤ x.total_cost)) :
    (orderedInsertBy scLe a l).Pairwise (fun x y => y.total_cost ≤ x.total_cost) := by
  induction l with
  | nil => simp [orderedInsertBy]
  | cons b t ih =>
      rcases List.pairwise_cons.mp hl with ⟨hb, ht⟩
      by_cases h : scLe a b = true
      · have hab : b.total_cost ≤ a.total_cost := by
          have := of_decide_eq_true h
          exact this
        simp only [orderedInsertBy, if_pos h]
        refine List.pairwise_cons.mpr ⟨?_, hl⟩
        intro y hy
        rcases List.mem_cons.mp hy with hyb | hyt
        · exact hyb ▸ hab
        · exact (hb y hyt).trans hab
      · have hnb : ¬ b.total_cost ≤ a.total_cost := fun hh => h (decide_eq_true hh)
        have hab : a.total_cost < b.total_cost := not_le.mp hnb
        simp only [orderedInsertBy, if_neg h]
        refine List.pairwise_cons.mpr ⟨?_, ih ht⟩
        intro y hy
        rcases List.mem_cons.mp ((orderedInsertBy_perm scLe a t).mem_iff.mp hy) with hya | hyt
        · exact hya ▸ le_of_lt hab
        · exact hb y hyt

theorem pairwise_insertionSortBy (l : List ServiceConsumptionData) :
    (insertionSortBy scLe l).Pairwise (fun x y => y.total_cost ≤ x.total_cost) := by
  induction l with
  | nil => simp [insertionSortBy]
  | cons a t ih => exact pairwise_orderedInsertBy a _ ih

theorem filter_orderedInsertBy_eq (a : ServiceConsumptionData)
    (l : List ServiceConsumptionData) (q : ℚ) (ha : a.total_cost = q) :
    (orderedInsertBy scLe a l).filter (fun e => decide (e.total_cost = q)) =
      a :: l.filter (fun e => decide (e.total_cost = q)) := by
  induction l with
  | nil => simp [orderedInsertBy, List.filter, ha]
  | cons b t ih =>
      by_cases h : scLe a b = true
      · simp only [orderedInsertBy, if_pos h]
        simp [List.filter_cons, ha]
      · have hnb : ¬ b.total_cost ≤ a.total_cost := fun hh => h (decide_eq_true hh)
        have hab : a.total_cost < b.total_cost := not_le.mp hnb
        have hbq : ¬ b.total_cost = q := by
          intro hh
          rw [hh, ← ha] at hab
          exact absurd hab (lt_irrefl _)
        simp only [orderedInsertBy, if_neg h]
        simp [List.filter_cons, hbq, ih]

theorem filter_orderedInsertBy_ne (a : ServiceConsumptionData)
    (l : List ServiceConsumptionData) (q : ℚ) (ha : ¬ a.total_cost = q) :
    (orderedInsertBy scLe a l).filter (fun e => decide (e.total_cost = q)) =
      l.filter (fun e => decide (e.total_cost = q)) := by
  induction l with
  | nil => simp [orderedInsertBy, List.filter, ha]
  | cons b t ih =>
      by_cases h : scLe a b = true
      · simp only [orderedInsertBy, if_pos h]
        simp [List.filter_cons, ha]
      · simp only [orderedInsertBy, if_neg h]
        by_cases hb : b.total_cost = q
        · simp [List.filter_cons, hb, ih]
        · simp [List.filter_cons, hb, ih]

/-- Stability of the modelled sort: elements with any given total cost keep
their relative input order. -/
theorem insertionSortBy_filter_key (l : List ServiceConsumptionData) (q : ℚ) :
    (insertionSortBy scLe l).filter (fun e => decide (e.total_cost = q)) =
      l.filter (fun e => decide (e.total_cost = q)) := by
  induction l with
  | nil => rfl
  | cons a t ih =>
      have hstep : insertionSortBy scLe (a :: t) =
          orderedInsertBy scLe a (insertionSortBy scLe t) := rfl
      by_cases ha : a.total_cost = q
      · rw [hstep, filter_orderedInsertBy_eq a _ q ha, ih]
        simp [List.filter_cons, ha]
      · rw [hstep, filter_orderedInsertBy_ne a _ q ha, ih]
        simp [List.filter_cons, ha]

/-! ## Lemmas about the surviving-service list -/

theorem buildSurvivors_pos (tsc : ℚ) (smt : List (String × List (String × ℚ))) :
    ∀ e ∈ buildSurvivors tsc smt, 0 < e.total_cost := by
  induction smt with
  | nil => intro e he; simp [buildSurvivors] at he
  | cons p rest ih =>
      obtain ⟨svc, mc⟩ := p
      intro e he
      by_cases h : 0 < sumValues mc
      · simp only [buildSurvivors, if_pos h] at he
        rcases List.mem_cons.mp he with he1 | he2
        · rw [he1]; exact h
        · exact ih e he2
      · simp only [buildSurvivors, if_neg h] at he
        exact ih e he

theorem buildSurvivors_percent (tsc : ℚ) (smt : List (String × List (String × ℚ))) :
    ∀ e ∈ buildSurvivors tsc smt,
      e.percent_of_total = if 0 < tsc then rustRound (e.total_cost / tsc * 100) else 0 := by
  induction smt with
  | nil => intro e he; simp [buildSurvivors] at he
  | cons p rest ih =>
      obtain ⟨svc, mc⟩ := p
      intro e he
      by_cases h : 0 < sumValues mc
      · simp only [buildSurvivors, if_pos h] at he
        rcases List.mem_cons.mp he with he1 | he2
        · rw [he1]
        · exact ih e he2
      · simp only [buildSurvivors, if_neg h] at he
        exact ih e he

/-! ## Lemmas about pagination -/

theorem chunksOf_join_of_le {α : Type} (n : ℕ) (hn : n ≠ 0) :
    ∀ (k : ℕ) (l : List α), l.length ≤ k → (chunksOf n l).flatten = l := by
  intro k
  induction k with
  | zero =>
      intro l hl
      have h0 : l = [] := List.eq_nil_of_length_eq_zero (Nat.le_zero.mp hl)
      subst h0; simp [chunksOf]
  | succ k ih =>
      intro l hl
      cases l with
      | nil => simp [chunksOf]
      | cons a t =>
          rw [chunksOf, dif_neg hn]
          simp only [List.flatten_cons]
          rw [ih ((a :: t).drop n) ?_]
          · exact List.take_append_drop n (a :: t)
          · have h1 : 0 < n := Nat.pos_of_ne_zero hn
            have h2 : (a :: t).length ≤ k + 1 := hl
            simp only [List.length_drop, List.length_cons] at h2 ⊢
            omega

theorem chunksOf_join {α : Type} (n : ℕ) (hn : n ≠ 0) (l : List α) :
    (chunksOf n l).flatten = l :=
  chunksOf_join_of_le n hn l.length l le_rfl

theorem chunksOf_mem_of_le {α : Type} (n : ℕ) (hn : n ≠ 0) :
    ∀ (k : ℕ) (l : List α), l.length ≤ k →
      ∀ c ∈ chunksOf n l, c.length ≤ n ∧ c ≠ [] := by
  intro k
  induction k with
  | zero =>
      intro l hl c hc
      have h0 : l = [] := List.eq_nil_of_length_eq_zero (Nat.le_zero.mp hl)
      subst h0; simp [chunksOf] at hc
  | succ k ih =>
      intro l hl c hc
      cases l with
      | nil => simp [chunksOf] at hc
      | cons a t =>
          rw [chunksOf, dif_neg hn] at hc
          rcases List.mem_cons.mp hc with hc1 | hc2
          · subst hc1
            constructor
            · rw [List.length_take]; exact min_le_left _ _
            · obtain ⟨m, rfl⟩ := Nat.exists_eq_succ_of_ne_zero hn
              simp [List.take]
          · refine ih ((a :: t).drop n) ?_ c hc2
            have h1 : 0 < n := Nat.pos_of_ne_zero hn
            simp only [List.length_drop, List.length_cons] at hl ⊢
            omega

theorem chunksOf_mem {α : Type} (n : ℕ) (hn : n ≠ 0) (l : List α) :
    ∀ c ∈ chunksOf n l, c.length ≤ n ∧ c ≠ [] :=
  chunksOf_mem_of_le n hn l.length l le_rfl

/-! ## Lemmas locating each account's trend inside the loop -/

theorem processAccounts_length (accts : List (List RawResult)) :
    ∀ (am : List String) (g : List (String × ℚ)),
      (processAccounts am g accts).1.length = accts.length := by
  induction accts with
  | nil => intro am g; simp [processAccounts]
  | cons r rs ih => intro am g; simp [processAccounts, ih]

theorem processOneAccount_trend_months (am : List String) (g : List (String × ℚ))
    (r : List RawResult) :
    (processOneAccount am g r).1.cost_trend.map CostTrendData.month =
      (processOneAccount am g r).2.1 := by
  simp [processOneAccount, buildTrend_map_month]

theorem processAccounts_get_trend (accts : List (List RawResult)) :
    ∀ (am : List String) (g : List (String × ℚ)) (i : ℕ)
      (h : i < (processAccounts am g accts).1.length),
    ((processAccounts am g accts).1.get ⟨i, h⟩).cost_trend.map CostTrendData.month =
      (processAccounts am g (accts.take (i + 1))).2.1 := by
  induction accts with
  | nil =>
      intro am g i h
      simp [processAccounts] at h
  | cons r rs ih =>
      intro am g i h
      cases i with
      | zero =>
          simp only [processAccounts, List.take, List.get]
          exact processOneAccount_trend_months am g r
      | succ j =>
          simp only [processAccounts, List.take, List.get]
          exact ih (processOneAccount am g r).2.1 (processOneAccount am g r).2.2 j _

/-! ## Claim C1 -/

/-- C1, counterexample: in a run with a month outside the recent window
(2020-01-01, cost 100) and one inside (2025-07-01, cost 50, end date
2025-07-04), the emitted global summary has total_cost 150 — the sum over the
whole unfiltered month map — while the window-filtered sum is 50, and the
average is the unfiltered 150 divided by the single filtered month.  This
refutes the claim that total_cost is computed over the filtered period set. -/
theorem c1_counterexample :
    parseDate "2025-07-04" = some 739436 ∧
    filteredMonths (runPipeline [[⟨"2020-01-01", [⟨["S"], some "100"⟩]⟩,
        ⟨"2025-07-01", [⟨["S"], some "50"⟩]⟩]]).2.1 739436 = ["2025-07-01"] ∧
    (globalSummary (runPipeline [[⟨"2020-01-01", [⟨["S"], some "100"⟩]⟩,
        ⟨"2025-07-01", [⟨["S"], some "50"⟩]⟩]]).2.2
      (filteredMonths (runPipeline [[⟨"2020-01-01", [⟨["S"], some "100"⟩]⟩,
        ⟨"2025-07-01", [⟨["S"], some "50"⟩]⟩]]).2.1 739436)).total_cost = 150 ∧
    (globalSummary (runPipeline [[⟨"2020-01-01", [⟨["S"], some "100"⟩]⟩,
        ⟨"2025-07-01", [⟨["S"], some "50"⟩]⟩]]).2.2
      (filteredMonths (runPipeline [[⟨"2020-01-01", [⟨["S"], some "100"⟩]⟩,
        ⟨"2025-07-01", [⟨["S"], some "50"⟩]⟩]]).2.1 739436)).average_monthly_cost = 150 ∧
    ((filteredMonths (runPipeline [[⟨"2020-01-01", [⟨["S"], some "100"⟩]⟩,
        ⟨"2025-07-01", [⟨["S"], some "50"⟩]⟩]]).2.1 739436).map
      (lookupD (runPipeline [[⟨"2020-01-01", [⟨["S"], some "100"⟩]⟩,
        ⟨"2025-07-01", [⟨["S"], some "50"⟩]⟩]]).2.2)).sum = 50 ∧
    (150 : ℚ) ≠ 50 := by
  have hgc100 : groupCost ⟨["S"], some "100"⟩ = 100 := by
    have h : groupCost ⟨["S"], some "100"⟩ = 1 * ((100 : ℕ) : ℚ) := rfl
    rw [h]; norm_num
  have hgc50 : groupCost ⟨["S"], some "50"⟩ = 50 := by
    have h : groupCost ⟨["S"], some "50"⟩ = 1 * ((50 : ℕ) : ℚ) := rfl
    rw [h]; norm_num
  refine ⟨by decide, ?_, ?_, ?_, ?_, by norm_num⟩ <;>
    norm_num [runPipeline, processAccounts, processOneAccount, processResults,
      processResult, processGroups, hgc100, hgc50, insertAdd, insertAdd2, sumValues,
      lookupD, globalSummary, filteredMonths, insertionSortBy, orderedInsertBy,
      sixMonthsAgo, buildTrend, buildTrendAux, serviceConsumption, buildSurvivors,
      totalServiceCost, scLe, rustRound,
      (by simp; decide : ("2020-01-01" : String) ≤ "2025-07-01"),
      (by simp; decide : ¬ (("2025-07-01" : String) ≤ "2020-01-01")),
      (by decide : parseDate "2025-07-01" = some 739433),
      (by decide : parseDate "2020-01-01" = some 737425),
      (by decide : ¬ (("2020-01-01" : String) = "2025-07-01")),
      (by decide : ¬ (("2025-07-01" : String) = "2020-01-01"))]

/-- C1 (amended): the global summary's total_cost sums the entire
(unfiltered) global month map — equivalently, the sum of every account's full
range total_cost — and average_monthly_cost divides that unfiltered total by
the filtered period count (0 when no periods survive). -/
theorem c1_amended_thm (accts : List (List RawResult)) (endD : ℤ) :
    (globalSummary (runPipeline accts).2.2
        (filteredMonths (runPipeline accts).2.1 endD)).total_cost
      = ((runPipeline accts).1.map AccountCostData.total_cost).sum ∧
    (globalSummary (runPipeline accts).2.2
        (filteredMonths (runPipeline accts).2.1 endD)).average_monthly_cost
      = (if filteredMonths (runPipeline accts).2.1 endD = [] then 0
         else ((runPipeline accts).1.map AccountCostData.total_cost).sum /
           ((filteredMonths (runPipeline accts).2.1 endD).length : ℚ)) := by
  have h := processAccounts_global_sum accts [] []
  have htot : sumValues (runPipeline accts).2.2
      = ((runPipeline accts).1.map AccountCostData.total_cost).sum := by
    simpa [sumValues] using h
  constructor
  · exact htot
  · by_cases hfm : filteredMonths (runPipeline accts).2.1 endD = []
    · simp [globalSummary, hfm]
    · simp only [globalSummary, if_neg hfm]
      rw [htot]

/-! ## Claim C2 -/

/-- C2, counterexample: one account with service A totalling 100 and service
B totalling −50.  The denominator used by the code is the sum over all
services (100 − 50 = 50), so A's share is round(100·100/50) = 200, while the
claim's surviving-only denominator (100) would give 100. -/
theorem c2_counterexample :
    (serviceConsumption [("A", [("m", 100)]), ("B", [("m", -50)])]).map
        (fun e => (e.service, e.percent_of_total)) = [("A", 200)] ∧
    rustRound ((100 : ℚ) / 100 * 100) = 100 ∧
    ((200 : ℚ) ≠ 100) := by
  refine ⟨?_, by norm_num [rustRound], by norm_num⟩
  norm_num [serviceConsumption, buildSurvivors, totalServiceCost, sumValues,
    insertionSortBy, orderedInsertBy, scLe, rustRound,
    (by decide : ¬ (("A" : String) = "B")), (by decide : ¬ (("B" : String) = "A"))]

/-- C2 (amended): each surviving service's percent_of_total is computed
against the sum of month values over ALL services of the account (including
the non-positive ones that are excluded from the list), as
round(100·total/total_service_cost) when that denominator is positive and 0
otherwise. -/
theorem c2_amended_thm (smt : List (String × List (String × ℚ)))
    (e : ServiceConsumptionData) (h : e ∈ serviceConsumption smt) :
    e.percent_of_total =
      if 0 < totalServiceCost smt
      then rustRound (e.total_cost / totalServiceCost smt * 100) else 0 := by
  have hmem : e ∈ buildSurvivors (totalServiceCost smt) smt :=
    (insertionSortBy_perm scLe _).mem_iff.mp h
  exact buildSurvivors_percent _ _ e hmem

/-- C2 witness: concrete application of the amended theorem. -/
theorem c2_amended_witness :
    (⟨"A", [("m", 100)], 100, 200⟩ : ServiceConsumptionData) ∈
        serviceConsumption [("A", [("m", 100)]), ("B", [("m", -50)])] ∧
    (⟨"A", [("m", 100)], 100, 200⟩ : ServiceConsumptionData).percent_of_total =
      (if 0 < totalServiceCost [("A", [("m", 100)]), ("B", [("m", -50)])]
       then rustRound ((⟨"A", [("m", 100)], 100, 200⟩ : ServiceConsumptionData).total_cost /
         totalServiceCost [("A", [("m", 100)]), ("B", [("m", -50)])] * 100) else 0) := by
  have hmem : (⟨"A", [("m", 100)], 100, 200⟩ : ServiceConsumptionData) ∈
      serviceConsumption [("A", [("m", 100)]), ("B", [("m", -50)])] := by
    norm_num [serviceConsumption, buildSurvivors, totalServiceCost, sumValues,
      insertionSortBy, orderedInsertBy, scLe, rustRound,
      (by decide : ¬ (("A" : String) = "B")), (by decide : ¬ (("B" : String) = "A"))]
  exact ⟨hmem, c2_amended_thm _ _ hmem⟩

/-! ## Claim C3 -/

/-- C3, counterexample: two accounts, the second contributing a period the
first never saw.  The per-account trend lengths are [1, 2] while the global
period universe has 2 periods, so the first account's trend does not cover
the universe, refuting the claim that every account's trend does. -/
theorem c3_counterexample :
    ((runPipeline [[⟨"2025-01-01", [⟨["S"], some "1"⟩]⟩],
        [⟨"2025-01-01", [⟨["S"], some "1"⟩]⟩, ⟨"2025-02-01", [⟨["S"], some "1"⟩]⟩]]).1.map
      (fun a => a.cost_trend.length)) = [1, 2] ∧
    (runPipeline [[⟨"2025-01-01", [⟨["S"], some "1"⟩]⟩],
        [⟨"2025-01-01", [⟨["S"], some "1"⟩]⟩,
          ⟨"2025-02-01", [⟨["S"], some "1"⟩]⟩]]).2.1.length = 2 ∧
    (1 : ℕ) ≠ 2 := by
  have hgc1 : groupCost ⟨["S"], some "1"⟩ = 1 := by
    have h : groupCost ⟨["S"], some "1"⟩ = 1 * ((1 : ℕ) : ℚ) := rfl
    rw [h]; norm_num
  refine ⟨?_, ?_, by norm_num⟩ <;>
    norm_num [runPipeline, processAccounts, processOneAccount, processResults,
      processResult, processGroups, hgc1, insertAdd, insertAdd2, sumValues, lookupD,
      buildTrend, buildTrendAux, serviceConsumption, buildSurvivors, totalServiceCost,
      scLe, rustRound,
      (by decide : ¬ (("2025-01-01" : String) = "2025-02-01")),
      (by decide : ¬ (("2025-02-01" : String) = "2025-01-01"))]

/-- C3 (amended): the i-th processed account's trend covers exactly the
period list `all_months` as it stands after that account is aggregated (the
deduplicated periods of accounts 0..i, in first-encounter order), so its
length equals the size of that prefix universe — not of the final global
universe. -/
theorem c3_amended_thm (accts : List (List RawResult)) (i : ℕ)
    (h : i < (runPipeline accts).1.length) :
    ((runPipeline accts).1.get ⟨i, h⟩).cost_trend.map CostTrendData.month =
      (runPipeline (accts.take (i + 1))).2.1 ∧
    ((runPipeline accts).1.get ⟨i, h⟩).cost_trend.length =
      (runPipeline (accts.take (i + 1))).2.1.length := by
  have h1 := processAccounts_get_trend accts [] [] i h
  refine ⟨h1, ?_⟩
  have h2 := congrArg List.length h1
  simpa using h2

/-- C3 witness: concrete application of the amended theorem. -/
theorem c3_amended_witness :
    0 < (runPipeline [[⟨"2025-02-01", [⟨["S"], some "1"⟩]⟩]]).1.length ∧
    ((runPipeline [[⟨"2025-02-01", [⟨["S"], some "1"⟩]⟩]]).1.get
        ⟨0, by decide⟩).cost_trend.map CostTrendData.month =
      (runPipeline ([[⟨"2025-02-01", [⟨["S"], some "1"⟩]⟩]].take 1)).2.1 :=
  ⟨by decide, (c3_amended_thm [[⟨"2025-02-01", [⟨["S"], some "1"⟩]⟩]] 0 (by decide)).1⟩

/-! ## Claim C4 -/

/-- C4, counterexample: the ranked list's tie order is whatever order the
service map's entries are iterated in.  The same two tied services presented
in their two possible iteration orders produce two different rankings, and a
`std::collections::HashMap` iterates in an unspecified order that need not
be first-insertion order — so for an account that encountered A before B,
the program may legitimately rank B before A at a tie.  "Ties broken by
original encounter order" is therefore not a guarantee of the program. -/
theorem c4_counterexample :
    (serviceConsumption [("A", [("m", 5)]), ("B", [("m", 5)])]).map
        ServiceConsumptionData.service = ["A", "B"] ∧
    (serviceConsumption [("B", [("m", 5)]), ("A", [("m", 5)])]).map
        ServiceConsumptionData.service = ["B", "A"] ∧
    (["A", "B"] : List String) ≠ ["B", "A"] := by
  refine ⟨?_, ?_, by decide⟩ <;>
    norm_num [serviceConsumption, buildSurvivors, totalServiceCost, sumValues,
      insertionSortBy, orderedInsertBy, scLe, rustRound,
      (by decide : ¬ (("A" : String) = "B")), (by decide : ¬ (("B" : String) = "A"))]

/-- C4 (amended): for WHATEVER order the service map's entries are iterated
in, the ranked list contains exactly the services with positive total (it is
a permutation of the survivor list in that iteration order and every member
has positive total), is sorted by total cost descending, and the sort is
stable: for every total-cost value, the entries carrying it keep the
iteration order.  Since a HashMap's iteration order is unspecified, ties
follow that unspecified order, not necessarily the original encounter
order. -/
theorem c4_thm (smt : List (String × List (String × ℚ))) :
    (∀ e ∈ serviceConsumption smt, 0 < e.total_cost) ∧
    List.Perm (serviceConsumption smt) (buildSurvivors (totalServiceCost smt) smt) ∧
    (serviceConsumption smt).Pairwise (fun a b => b.total_cost ≤ a.total_cost) ∧
    (∀ q : ℚ, (serviceConsumption smt).filter (fun e => decide (e.total_cost = q)) =
      (buildSurvivors (totalServiceCost smt) smt).filter
        (fun e => decide (e.total_cost = q))) := by
  refine ⟨?_, insertionSortBy_perm scLe _, pairwise_insertionSortBy _,
    fun q => insertionSortBy_filter_key _ q⟩
  intro e he
  exact buildSurvivors_pos _ _ e ((insertionSortBy_perm scLe _).mem_iff.mp he)

/-- C4 witness: concrete application at two tied services. -/
theorem c4_witness :
    (⟨"A", [("m", 5)], 5, 50⟩ : ServiceConsumptionData) ∈
        serviceConsumption [("A", [("m", 5)]), ("B", [("m", 5)])] ∧
    0 < (⟨"A", [("m", 5)], 5, 50⟩ : ServiceConsumptionData).total_cost := by
  have hmem : (⟨"A", [("m", 5)], 5, 50⟩ : ServiceConsumptionData) ∈
      serviceConsumption [("A", [("m", 5)]), ("B", [("m", 5)])] := by
    norm_num [serviceConsumption, buildSurvivors, totalServiceCost, sumValues,
      insertionSortBy, orderedInsertBy, scLe, rustRound,
      (by decide : ¬ (("A" : String) = "B")), (by decide : ¬ (("B" : String) = "A"))]
  exact ⟨hmem, (c4_thm [("A", [("m", 5)]), ("B", [("m", 5)])]).1 _ hmem⟩

/-! ## Claim C5 -/

/-- C5, counterexample: costs [100, 0] give the second point a
month-over-month percent of −100, not 0 — the zero guard is on the previous
period's cost, which here is 100. -/
theorem c5_counterexample :
    ((buildTrend ["2025-01-01", "2025-02-01"]
        [("2025-01-01", 100), ("2025-02-01", 0)]).map CostTrendData.mom_change_percent
      = [0, -100]) ∧ ((-100 : ℚ) ≠ 0) := by
  refine ⟨?_, by norm_num⟩
  norm_num [buildTrend, buildTrendAux, lookupD, rustRound,
    (by decide : ¬ (("2025-01-01" : String) = "2025-02-01")),
    (by decide : ¬ (("2025-02-01" : String) = "2025-01-01"))]

/-- C5 (amended): the first trend point of a series has MoM percent 0; every
later point has MoM percent 0 exactly when the immediately preceding
period's cost is 0, and otherwise round((cur − prev)/prev·100); so [100, 0]
yields −100 for the second point, while [0, 100] yields 0. -/
theorem c5_amended_thm (months : List String) (totals : List (String × ℚ)) :
    (∀ p, (buildTrend months totals).get? 0 = some p → p.mom_change_percent = 0) ∧
    (∀ (i : ℕ) (p q : CostTrendData), (buildTrend months totals).get? i = some p →
      (buildTrend months totals).get? (i + 1) = some q →
      q.mom_change_percent =
        if p.total_cost = 0 then 0
        else rustRound ((q.total_cost - p.total_cost) / p.total_cost * 100)) :=
  ⟨fun p hp => buildTrend_head_mom months totals p hp,
   fun i p q hp hq => buildTrendAux_consecutive totals months none i p q hp hq⟩

/-- C5 witness: at costs [100, 150] the amended rule gives MoM 50. -/
theorem c5_amended_witness :
    (buildTrend ["2025-01-01", "2025-02-01"]
        [("2025-01-01", 100), ("2025-02-01", 150)]).get? 0 =
      some ⟨"2025-01-01", 100, 0⟩ ∧
    (buildTrend ["2025-01-01", "2025-02-01"]
        [("2025-01-01", 100), ("2025-02-01", 150)]).get? 1 =
      some ⟨"2025-02-01", 150, 50⟩ ∧
    (⟨"2025-02-01", 150, 50⟩ : CostTrendData).mom_change_percent =
      (if (⟨"2025-01-01", 100, 0⟩ : CostTrendData).total_cost = 0 then 0
       else rustRound (((⟨"2025-02-01", 150, 50⟩ : CostTrendData).total_cost -
           (⟨"2025-01-01", 100, 0⟩ : CostTrendData).total_cost) /
         (⟨"2025-01-01", 100, 0⟩ : CostTrendData).total_cost * 100)) := by
  have h0 : (buildTrend ["2025-01-01", "2025-02-01"]
      [("2025-01-01", 100), ("2025-02-01", 150)]).get? 0 = some ⟨"2025-01-01", 100, 0⟩ := by
    norm_num [buildTrend, buildTrendAux, lookupD, rustRound,
      (by decide : ¬ (("2025-01-01" : String) = "2025-02-01")),
      (by decide : ¬ (("2025-02-01" : String) = "2025-01-01"))]
  have h1 : (buildTrend ["2025-01-01", "2025-02-01"]
      [("2025-01-01", 100), ("2025-02-01", 150)]).get? 1 = some ⟨"2025-02-01", 150, 50⟩ := by
    norm_num [buildTrend, buildTrendAux, lookupD, rustRound,
      (by decide : ¬ (("2025-01-01" : String) = "2025-02-01")),
      (by decide : ¬ (("2025-02-01" : String) = "2025-01-01"))]
  exact ⟨h0, h1,
    (c5_amended_thm ["2025-01-01", "2025-02-01"]
        [("2025-01-01", 100), ("2025-02-01", 150)]).2 0
      ⟨"2025-01-01", 100, 0⟩ ⟨"2025-02-01", 150, 50⟩ h0 h1⟩

/-! ## Claim C6 -/

/-- C6: the unified view paginates the filtered period list into chunks of
size 7 (10 columns minus 3 reserved) and the service view into chunks of size
8 (10 minus 2); chunks are consecutive and order-preserving: concatenating
all pages' period columns in page order reproduces the filtered list exactly,
with no period duplicated or omitted. -/
theorem c6_thm (fm : List String) :
    (unifiedPages fm).flatten = fm ∧
    (servicePages fm).flatten = fm ∧
    (∀ c ∈ unifiedPages fm, c.length ≤ 7 ∧ c ≠ []) ∧
    (∀ c ∈ servicePages fm, c.length ≤ 8 ∧ c ≠ []) ∧
    unifiedPages fm = chunksOf 7 fm ∧
    servicePages fm = chunksOf 8 fm :=
  ⟨chunksOf_join 7 (by decide) fm, chunksOf_join 8 (by decide) fm,
   chunksOf_mem 7 (by decide) fm, chunksOf_mem 8 (by decide) fm, rfl, rfl⟩

/-- C6 witness: 14 filtered months paginate into two unified pages of 7. -/
theorem c6_witness :
    ["m01", "m02", "m03", "m04", "m05", "m06", "m07"] ∈
        unifiedPages ["m01", "m02", "m03", "m04", "m05", "m06", "m07",
          "m08", "m09", "m10", "m11", "m12", "m13", "m14"] ∧
    (["m01", "m02", "m03", "m04", "m05", "m06", "m07"].length ≤ 7 ∧
      ["m01", "m02", "m03", "m04", "m05", "m06", "m07"] ≠ ([] : List String)) := by
  have hmem : ["m01", "m02", "m03", "m04", "m05", "m06", "m07"] ∈
      unifiedPages ["m01", "m02", "m03", "m04", "m05", "m06", "m07",
        "m08", "m09", "m10", "m11", "m12", "m13", "m14"] := by
    simp [unifiedPages, maxColumns, chunksOf]
  exact ⟨hmem,
    (c6_thm ["m01", "m02", "m03", "m04", "m05", "m06", "m07",
      "m08", "m09", "m10", "m11", "m12", "m13", "m14"]).2.2.1 _ hmem⟩

/-! ## Claim C7 -/

/-- C7, counterexample: with a tag key and no tag value the constructed
request contains BOTH the SERVICE dimension group-by and a tag group-by,
refuting "never both in the same run". -/
theorem c7_counterexample :
    ((buildCostRequest "123456789012" (some "env") none).groupBys.any
        (fun g => decide (g.type = GroupDefinitionType.dimension ∧ g.key = "SERVICE")) = true) ∧
    ((buildCostRequest "123456789012" (some "env") none).groupBys.any
        (fun g => decide (g.type = GroupDefinitionType.tag)) = true) := by
  decide

/-- C7 (amended): the request always carries the SERVICE dimension group-by;
a tag group-by is appended in addition exactly when a tag key is given
without a tag value (when both are given, the tag becomes a filter and the
only group-by is SERVICE). -/
theorem c7_amended_thm (accountId : String) (tagKey tagValue : Option String) :
    (buildCostRequest accountId tagKey tagValue).groupBys =
      ⟨GroupDefinitionType.dimension, "SERVICE"⟩ ::
        (match tagKey, tagValue with
         | some k, none => [⟨GroupDefinitionType.tag, k⟩]
         | _, _ => []) := by
  cases tagKey <;> cases tagValue <;> rfl

/-! ## Claim C8 -/

/-- C8: with hourly granularity and validly parsed dates, a span of more
than 7 days makes the run stop before any data fetch with the clean
(success) hourly-limit abort, while a span of at most 7 days (in particular
exactly 7) proceeds. -/
theorem c8_thm (startStr endStr : String) (s e : ℤ)
    (hs : parseDate startStr = some s) (he : parseDate endStr = some e) :
    (7 < e - s →
      validateDates startStr endStr GranularityOption.hourly = EarlyOutcome.cleanAbortHourly) ∧
    (e - s ≤ 7 →
      validateDates startStr endStr GranularityOption.hourly = EarlyOutcome.proceed s e) := by
  constructor
  · intro hgt
    unfold validateDates
    rw [hs, he]
    show (if GranularityOption.hourly = GranularityOption.hourly ∧ 7 < e - s
        then EarlyOutcome.cleanAbortHourly else EarlyOutcome.proceed s e) = _
    rw [if_pos ⟨rfl, hgt⟩]
  · intro hle
    unfold validateDates
    rw [hs, he]
    show (if GranularityOption.hourly = GranularityOption.hourly ∧ 7 < e - s
        then EarlyOutcome.cleanAbortHourly else EarlyOutcome.proceed s e) = _
    rw [if_neg (fun hc => absurd hc.2 (by omega))]

/-- C8 witness: a 19-day span aborts cleanly, a 7-day span proceeds. -/
theorem c8_witness :
    parseDate "2025-01-01" = some 739252 ∧ parseDate "2025-01-20" = some 739271 ∧
    parseDate "2025-01-08" = some 739259 ∧
    validateDates "2025-01-01" "2025-01-20" GranularityOption.hourly =
      EarlyOutcome.cleanAbortHourly ∧
    validateDates "2025-01-01" "2025-01-08" GranularityOption.hourly =
      EarlyOutcome.proceed 739252 739259 :=
  ⟨by decide, by decide, by decide,
   (c8_thm "2025-01-01" "2025-01-20" 739252 739271 (by decide) (by decide)).1 (by decide),
   (c8_thm "2025-01-01" "2025-01-08" 739252 739259 (by decide) (by decide)).2 (by decide)⟩

/-! ## Claim C9 -/

/-- C9, counterexample: the claim covers every amount string that "fails to
parse as a finite number", but Rust's `parse::<f64>` SUCCEEDS on the
spelling "inf" (and "infinity"/"nan", case-insensitive), returning a
non-finite value — so the `unwrap_or(0.0)` fallback of main.rs line 314
never fires and the entry is assigned cost +∞, not zero; `total_cost += cost`
then drags the month and service totals to a non-finite value instead of
leaving them unchanged. -/
theorem c9_counterexample :
    parseF64 "inf" = some (F64Val.inf false) ∧
    rustCost ⟨["S"], some "inf"⟩ = F64Val.inf false ∧
    F64Val.inf false ≠ F64Val.finite 0 := by
  refine ⟨by decide, by decide, by decide⟩

/-- C9 (amended): a raw group whose amount string fails to parse AT ALL
(Rust's parse returns Err, `parseF64` returns none) contributes zero
everywhere, wherever it sits in the account's result list: the account's
month totals, the global month map, the period list and every service's
total are the same as if the group were absent, and the account is still
processed — its trend, total and average are unchanged.  Strings that parse
to a NON-finite value (inf/infinity/nan) are excluded: they are not degraded
to zero (see the counterexample). -/
theorem c9_thm (am : List String) (g : List (String × ℚ)) (rpre : List RawResult)
    (month : String) (gpre gpost : List RawGroup) (ks : List String) (s : String)
    (hbad : parseF64 s = none) (rest : List RawResult) :
    ((processResults ⟨[], [], g, am⟩
        (rpre ++ ⟨month, gpre ++ ⟨ks, some s⟩ :: gpost⟩ :: rest)).monthly =
      (processResults ⟨[], [], g, am⟩
        (rpre ++ ⟨month, gpre ++ gpost⟩ :: rest)).monthly) ∧
    ((processResults ⟨[], [], g, am⟩
        (rpre ++ ⟨month, gpre ++ ⟨ks, some s⟩ :: gpost⟩ :: rest)).global =
      (processResults ⟨[], [], g, am⟩
        (rpre ++ ⟨month, gpre ++ gpost⟩ :: rest)).global) ∧
    ((processResults ⟨[], [], g, am⟩
        (rpre ++ ⟨month, gpre ++ ⟨ks, some s⟩ :: gpost⟩ :: rest)).allMonths =
      (processResults ⟨[], [], g, am⟩
        (rpre ++ ⟨month, gpre ++ gpost⟩ :: rest)).allMonths) ∧
    (∀ svc, svcTotal (processResults ⟨[], [], g, am⟩
        (rpre ++ ⟨month, gpre ++ ⟨ks, some s⟩ :: gpost⟩ :: rest)).svc svc =
      svcTotal (processResults ⟨[], [], g, am⟩
        (rpre ++ ⟨month, gpre ++ gpost⟩ :: rest)).svc svc) ∧
    ((processOneAccount am g
        (rpre ++ ⟨month, gpre ++ ⟨ks, some s⟩ :: gpost⟩ :: rest)).1.cost_trend =
      (processOneAccount am g (rpre ++ ⟨month, gpre ++ gpost⟩ :: rest)).1.cost_trend) ∧
    ((processOneAccount am g
        (rpre ++ ⟨month, gpre ++ ⟨ks, some s⟩ :: gpost⟩ :: rest)).1.total_cost =
      (processOneAccount am g (rpre ++ ⟨month, gpre ++ gpost⟩ :: rest)).1.total_cost) ∧
    ((processOneAccount am g
        (rpre ++ ⟨month, gpre ++ ⟨ks, some s⟩ :: gpost⟩ :: rest)).1.average_monthly_cost =
      (processOneAccount am g
        (rpre ++ ⟨month, gpre ++ gpost⟩ :: rest)).1.average_monthly_cost) := by
  have hcost : groupCost ⟨ks, some s⟩ = 0 := by
    simp [groupCost, rustCost, hbad, F64Val.toRat]
  have hsum : ((gpre ++ ⟨ks, some s⟩ :: gpost).map groupCost).sum =
      ((gpre ++ gpost).map groupCost).sum := by
    simp [List.map_append, hcost]
  have hstep := processResults_congr rest
    (processResult (processResults ⟨[], [], g, am⟩ rpre)
      ⟨month, gpre ++ ⟨ks, some s⟩ :: gpost⟩)
    (processResult (processResults ⟨[], [], g, am⟩ rpre) ⟨month, gpre ++ gpost⟩)
    (by rw [processResult_monthly, processResult_monthly]; exact congrArg _ hsum)
    (by rw [processResult_global, processResult_global]; exact congrArg _ hsum)
    (by rw [processResult_allMonths, processResult_allMonths])
    (by
      intro svc
      rw [processResult_svcTotal, processResult_svcTotal]
      simp [List.map_append, hcost])
  have hm : (processResults ⟨[], [], g, am⟩
        (rpre ++ ⟨month, gpre ++ ⟨ks, some s⟩ :: gpost⟩ :: rest)).monthly =
      (processResults ⟨[], [], g, am⟩
        (rpre ++ ⟨month, gpre ++ gpost⟩ :: rest)).monthly := by
    rw [processResults_append, processResults_append]
    exact hstep.1
  have hg : (processResults ⟨[], [], g, am⟩
        (rpre ++ ⟨month, gpre ++ ⟨ks, some s⟩ :: gpost⟩ :: rest)).global =
      (processResults ⟨[], [], g, am⟩
        (rpre ++ ⟨month, gpre ++ gpost⟩ :: rest)).global := by
    rw [processResults_append, processResults_append]
    exact hstep.2.1
  have ha : (processResults ⟨[], [], g, am⟩
        (rpre ++ ⟨month, gpre ++ ⟨ks, some s⟩ :: gpost⟩ :: rest)).allMonths =
      (processResults ⟨[], [], g, am⟩
        (rpre ++ ⟨month, gpre ++ gpost⟩ :: rest)).allMonths := by
    rw [processResults_append, processResults_append]
    exact hstep.2.2.1
  have hsvc : ∀ svc, svcTotal (processResults ⟨[], [], g, am⟩
        (rpre ++ ⟨month, gpre ++ ⟨ks, some s⟩ :: gpost⟩ :: rest)).svc svc =
      svcTotal (processResults ⟨[], [], g, am⟩
        (rpre ++ ⟨month, gpre ++ gpost⟩ :: rest)).svc svc := by
    intro svc
    rw [processResults_append, processResults_append]
    exact hstep.2.2.2 svc
  refine ⟨hm, hg, ha, hsvc, ?_, ?_, ?_⟩
  · simp only [processOneAccount]
    rw [hm, ha]
  · simp only [processOneAccount]
    rw [hm]
  · simp only [processOneAccount]
    rw [hm, ha]

/-- C9 witness: a group whose amount "abc" is a parse ERROR leaves the month
map of the account unchanged. -/
theorem c9_witness :
    parseF64 "abc" = none ∧
    (processResults ⟨[], [], [], []⟩
        ([] ++ [⟨"2025-01-01", [⟨["S"], some "100"⟩, ⟨["T"], some "abc"⟩]⟩])).monthly =
      (processResults ⟨[], [], [], []⟩
        ([] ++ [⟨"2025-01-01", [⟨["S"], some "100"⟩]⟩])).monthly :=
  ⟨by decide,
   (c9_thm [] [] [] "2025-01-01" [⟨["S"], some "100"⟩] [] ["T"] "abc" (by decide) []).1⟩

/-! ## Claim C10 -/

theorem trimEndAll_append (suf l : List Char) (hsuf : suf ≠ []) :
    trimEndAll suf (l ++ suf) = trimEndAll suf l := by
  rw [trimEndAll]
  have hlen : (l ++ suf).length - suf.length = l.length := by
    simp [List.length_append]
  have hcond : suf ≠ [] ∧ suf.length ≤ (l ++ suf).length ∧
      (l ++ suf).drop ((l ++ suf).length - suf.length) = suf := by
    refine ⟨hsuf, by simp [List.length_append], ?_⟩
    rw [hlen]
    exact List.drop_left l suf
  rw [dif_pos hcond]
  congr 1
  rw [hlen]
  exact List.take_left l suf

theorem trimCsv_append_csv (base : String) : trimCsv (base ++ ".csv") = trimCsv base := by
  have hdata : (base ++ (".csv" : String)).data = base.data ++ ".csv".data := rfl
  simp only [trimCsv, hdata]
  rw [trimEndAll_append _ _ (by decide)]

/-- C10: the CSV base path is insensitive to a trailing ".csv": all four
output file paths built from base "X.csv" equal those built from base "X". -/
theorem c10_thm (base profile account : String) :
    trendCsvPath (base ++ ".csv") profile account = trendCsvPath base profile account ∧
    serviceCsvPath (base ++ ".csv") profile account = serviceCsvPath base profile account ∧
    globalCsvPath (base ++ ".csv") = globalCsvPath base ∧
    unifiedCsvPath (base ++ ".csv") = unifiedCsvPath base := by
  have h := trimCsv_append_csv base
  exact ⟨by simp [trendCsvPath, h], by simp [serviceCsvPath, h],
    by simp [globalCsvPath, h], by simp [unifiedCsvPath, h]⟩

end AwsCostCli
